import Mathlib

/-!
Verification development for the incremental copy-files engine in
`src/apps/heft/src/plugins/CopyFilesPlugin.ts`.

The engine is embedded shallowly:

* Filesystem paths are lists of segments (`FsPath`).
* The delegated glob resolution (`getFileSelectionSpecifierPathsAsync`) is an
  external collaborator; its result for an operation is carried as the
  `sourceFiles` field of the embedded `CopyOperation` record and is not part of
  the operation's serialized configuration.
* All filesystem and terminal side effects are recorded as an explicit
  `Event` trace; failures are returned through `Except`.
* SHA-256 (`createHash('sha256') ... digest('base64')`) is an external crypto
  primitive, carried as the abstract `hashString` field of the environment.
* The bounded-concurrency fan-outs (`Async.forEachAsync`) are modelled
  sequentially in declared order: per the code, the aggregated containers
  (maps, counters) are order-independent, and the shared destination map is
  updated under an atomic check-then-insert per key.
-/

/-- An absolute filesystem path, modelled as its list of segments. -/
abbrev FsPath := List String

/-- The special `..` path segment consumed by `path.resolve` and produced by
`path.relative`. -/
def parentSeg : String := ".."

/-- Model of Node `path.resolve(base, rel)` where `base` is absolute and `rel`
is a relative segment list: each `..` segment pops one segment, any other
segment is appended. -/
def resolveSegs (base : FsPath) (rel : List String) : FsPath :=
  rel.foldl (fun acc seg => if seg = parentSeg then acc.dropLast else acc ++ [seg]) base

/-- Model of Node `path.basename`: the last segment of the path. -/
def basenameSeg (p : FsPath) : String := p.getLast?.getD ""

/-- Model of Node `path.relative from to`: strip the common prefix, then climb
out of what remains of `from` and descend into what remains of `to`. -/
def pathRelative : FsPath → FsPath → List String
  | [], t => t
  | f :: fs, [] => (f :: fs).map fun _ => parentSeg
  | f :: fs, t :: ts =>
    if f = t then pathRelative fs ts
    else ((f :: fs).map fun _ => parentSeg) ++ t :: ts

/-- Render a path as an absolute POSIX-style string (used in log messages). -/
def pathStr (p : FsPath) : String := "/" ++ String.intercalate "/" p

/-- `ICopyOperation` from `CopyFilesPlugin.ts`, after normalization: a source
folder, glob selectors, absolute destination folders, optional `flatten` and
`hardlink` flags (`none` models an omitted/`undefined` field).  The
`sourceFiles` field carries the result of the delegated glob resolution
(`getFileSelectionSpecifierPathsAsync`, the keys of its returned map); it is
an external input, not part of the operation's own configuration record. -/
structure CopyOperation where
  sourcePath : FsPath
  destinationFolders : List FsPath
  includeGlobs : List String
  excludeGlobs : List String
  flatten : Option Bool
  hardlink : Option Bool
  sourceFiles : List FsPath
deriving DecidableEq

/-- `ICopyDescriptor`: one resolved unit of work. -/
structure CopyDescriptor where
  sourcePath : FsPath
  destinationPath : FsPath
  hardlink : Bool
deriving DecidableEq

/-- `IIncrementalBuildInfo`: the persisted snapshot record, a configuration
hash plus the map from input file path to content hash (modelled as an
association list in insertion order). -/
structure IIncrementalBuildInfo where
  configHash : String
  inputFileVersions : List (FsPath × String)
deriving DecidableEq

/-- Observable side effects of one engine run, in order of occurrence. -/
inductive Event where
  | readSnapshot : Event
  | verboseLine : String → Event
  | line : String → Event
  | hashFile : FsPath → Event
  | copyFile : FsPath → FsPath → Event
  | hardLink : FsPath → FsPath → Event
  | writeSnapshot : IIncrementalBuildInfo → Event
deriving DecidableEq

/-- The ways a run can fail (each corresponds to a thrown error or rejected
promise in the source). -/
inductive RunError where
  | conflict : FsPath → RunError
  | missingHash : FsPath → RunError
  | readError : FsPath → RunError
  | transferError : CopyDescriptor → RunError
deriving DecidableEq

/-- External collaborators of one run: the prior snapshot as
`tryReadBuildInfoAsync` would deliver it (already `none` on missing/corrupt
file), the readable file contents, the abstract SHA-256 digest, and whether a
given transfer succeeds. -/
structure Env where
  priorSnapshot : Option IIncrementalBuildInfo
  fileContent : FsPath → Option String
  hashString : String → String
  copyOk : CopyDescriptor → Bool

/-- First-match lookup in an insertion-ordered association list (JS `Map.get`;
keys are unique by construction wherever this is used). -/
def lookupMap {α : Type} : List (FsPath × α) → FsPath → Option α
  | [], _ => none
  | (k, v) :: rest, p => if k = p then some v else lookupMap rest p

/-- Helper for `dedupPaths`: drop elements already seen. -/
def dedupAux (seen : List FsPath) : List FsPath → List FsPath
  | [] => []
  | p :: ps => if p ∈ seen then dedupAux seen ps else p :: dedupAux (p :: seen) ps

/-- JS `Set` insertion-order deduplication. -/
def dedupPaths (l : List FsPath) : List FsPath := dedupAux [] l

/-- The destination path computed at lines 133-138 of the source:
`path.resolve(destinationFolderPath, flatten ? basename(src) : relative(sourceFolder, src))`. -/
def resolvedDestinationPath (op : CopyOperation) (destinationFolderPath sourceFilePath : FsPath) :
    FsPath :=
  resolveSegs destinationFolderPath
    (if op.flatten.getD false then [basenameSeg sourceFilePath]
     else pathRelative op.sourcePath sourceFilePath)

/-- The descriptors one operation contributes, in the source's nested loop
order (destination folders outer, matched source files inner); `hardlink`
defaults to `false` (`!!copyConfiguration.hardlink`). -/
def descriptorsOfOperation (op : CopyOperation) : List CopyDescriptor :=
  op.destinationFolders.foldr
    (fun destinationFolderPath acc =>
      (op.sourceFiles.map fun sourceFilePath =>
        { sourcePath := sourceFilePath
          destinationPath := resolvedDestinationPath op destinationFolderPath sourceFilePath
          hardlink := op.hardlink.getD false : CopyDescriptor }) ++ acc)
    []

/-- One check-then-insert step on the shared destination map (lines 140-163):
an identical re-declaration is skipped, a differing one is a fatal conflict,
a fresh destination is appended. -/
def insertDescriptor (m : List (FsPath × CopyDescriptor)) (d : CopyDescriptor) :
    Except RunError (List (FsPath × CopyDescriptor)) :=
  match lookupMap m d.destinationPath with
  | some existing =>
    if existing.sourcePath = d.sourcePath ∧ existing.hardlink = d.hardlink then Except.ok m
    else Except.error (RunError.conflict d.destinationPath)
  | none => Except.ok (m ++ [(d.destinationPath, d)])

/-- `_getCopyDescriptorsAsync`: fold every operation's descriptors into the
shared destination-keyed map. -/
def getCopyDescriptors (ops : List CopyOperation) :
    Except RunError (List (FsPath × CopyDescriptor)) :=
  ops.foldlM (fun m op => (descriptorsOfOperation op).foldlM insertDescriptor m) []

/-- Verbose message emitted when the prior snapshot is discarded. -/
def discardMsg : String := "File copy configuration changed, discarding incremental state."

/-- Message emitted when the transfer set is empty. -/
def nothingToDoMsg : String := "All requested file copy operations are up to date. Nothing to do."

/-- The summary line (lines 264-267), with the source's singular/plural rule. -/
def summaryMsg (copied linked : Nat) : String :=
  "Copied " ++ toString copied ++ (if copied = 1 then " file" else " files") ++
    " and linked " ++ toString linked ++ (if linked = 1 then " file" else " files")

/-- Per-file verbose message for a plain copy. -/
def copiedVerboseMsg (d : CopyDescriptor) : String :=
  "Copied \"" ++ pathStr d.sourcePath ++ "\" to \"" ++ pathStr d.destinationPath ++ "\"."

/-- Per-file verbose message for a hardlink. -/
def linkedVerboseMsg (d : CopyDescriptor) : String :=
  "Linked \"" ++ pathStr d.sourcePath ++ "\" to \"" ++ pathStr d.destinationPath ++ "\"."

/-- The snapshot the run actually uses (lines 183-187): a prior snapshot whose
`configHash` differs from the current one is discarded. -/
def effectiveOldInfo (prior : Option IIncrementalBuildInfo) (configHash : String) :
    Option IIncrementalBuildInfo :=
  match prior with
  | none => none
  | some bi => if bi.configHash = configHash then some bi else none

/-- The verbose output of the discard check at lines 184-187. -/
def effectiveOldEvents (prior : Option IIncrementalBuildInfo) (configHash : String) :
    List Event :=
  match prior with
  | none => []
  | some bi => if bi.configHash = configHash then [] else [Event.verboseLine discardMsg]

/-- The hashing fan-out (lines 201-211): read and hash every distinct input
file; an unreadable file rejects the run. -/
def hashInputs (env : Env) : List FsPath → List Event × Except RunError (List (FsPath × String))
  | [] => ([], Except.ok [])
  | p :: ps =>
    match env.fileContent p with
    | none => ([Event.hashFile p], Except.error (RunError.readError p))
    | some c =>
      match hashInputs env ps with
      | (evs, Except.error e) => (Event.hashFile p :: evs, Except.error e)
      | (evs, Except.ok rest) =>
        (Event.hashFile p :: evs, Except.ok ((p, env.hashString c) :: rest))

/-- The skip test at line 222: the descriptor's source hash is present in the
effective old snapshot with the same value. -/
def upToDate (old : Option IIncrementalBuildInfo) (versions : List (FsPath × String))
    (d : CopyDescriptor) : Bool :=
  match lookupMap versions d.sourcePath with
  | none => false
  | some h => decide ((old.bind fun bi => lookupMap bi.inputFileVersions d.sourcePath) = some h)

/-- The diff loop at lines 213-227: keep the descriptors whose source hash is
missing from (or differs in) the effective old snapshot; a missing or falsy
freshly-computed hash is a fatal `Missing hash for input file` error. -/
def selectWork (old : Option IIncrementalBuildInfo) (versions : List (FsPath × String)) :
    List CopyDescriptor → Except RunError (List CopyDescriptor)
  | [] => Except.ok []
  | d :: ds =>
    match lookupMap versions d.sourcePath with
    | none => Except.error (RunError.missingHash d.sourcePath)
    | some h =>
      if h = "" then Except.error (RunError.missingHash d.sourcePath)
      else
        match selectWork old versions ds with
        | Except.error e => Except.error e
        | Except.ok rest =>
          if (old.bind fun bi => lookupMap bi.inputFileVersions d.sourcePath) = some h then
            Except.ok rest
          else Except.ok (d :: rest)

/-- The filesystem mutation for one descriptor (copy or hardlink, both with
overwrite). -/
def transferEvent (d : CopyDescriptor) : Event :=
  if d.hardlink then Event.hardLink d.sourcePath d.destinationPath
  else Event.copyFile d.sourcePath d.destinationPath

/-- The per-file verbose line written after a successful transfer. -/
def transferVerbose (d : CopyDescriptor) : Event :=
  Event.verboseLine (if d.hardlink then linkedVerboseMsg d else copiedVerboseMsg d)

/-- The transfer fan-out (lines 236-262): perform each transfer, counting
copies and links; the first failure rejects the run and aborts the rest. -/
def transferLoop (env : Env) : List CopyDescriptor → List Event × Except RunError (Nat × Nat)
  | [] => ([], Except.ok (0, 0))
  | d :: ds =>
    if env.copyOk d then
      match transferLoop env ds with
      | (evs, Except.error e) => (transferEvent d :: transferVerbose d :: evs, Except.error e)
      | (evs, Except.ok (c, l)) =>
        (transferEvent d :: transferVerbose d :: evs,
          Except.ok (if d.hardlink then (c, l + 1) else (c + 1, l)))
    else ([transferEvent d], Except.error (RunError.transferError d))

/-- The distinct source paths referenced by the descriptor map, in first-use
order (the `allInputFiles` set at lines 196-199). -/
def allInputFilesOf (copyDescriptors : List (FsPath × CopyDescriptor)) : List FsPath :=
  dedupPaths (copyDescriptors.map fun kv => kv.2.sourcePath)

/-- `_copyFilesInnerAsync` (lines 173-270): empty descriptor map returns
immediately; otherwise read the prior snapshot, discard it on a fingerprint
mismatch, hash all distinct inputs, diff, and either report nothing to do or
run the transfers, report the counts, and persist the new snapshot. -/
def copyFilesInner (env : Env) (copyDescriptors : List (FsPath × CopyDescriptor))
    (configHash : String) : List Event × Except RunError Unit :=
  if copyDescriptors = [] then ([], Except.ok ())
  else
    match hashInputs env (allInputFilesOf copyDescriptors) with
    | (hashEvs, Except.error e) =>
      (Event.readSnapshot :: effectiveOldEvents env.priorSnapshot configHash ++ hashEvs,
        Except.error e)
    | (hashEvs, Except.ok inputFileVersions) =>
      match selectWork (effectiveOldInfo env.priorSnapshot configHash) inputFileVersions
          (copyDescriptors.map fun kv => kv.2) with
      | Except.error e =>
        (Event.readSnapshot :: effectiveOldEvents env.priorSnapshot configHash ++ hashEvs,
          Except.error e)
      | Except.ok work =>
        if work = [] then
          (Event.readSnapshot :: effectiveOldEvents env.priorSnapshot configHash ++ hashEvs ++
            [Event.line nothingToDoMsg], Except.ok ())
        else
          match transferLoop env work with
          | (tEvs, Except.error e) =>
            (Event.readSnapshot :: effectiveOldEvents env.priorSnapshot configHash ++ hashEvs ++
              tEvs, Except.error e)
          | (tEvs, Except.ok (copied, linked)) =>
            (Event.readSnapshot :: effectiveOldEvents env.priorSnapshot configHash ++ hashEvs ++
              tEvs ++ [Event.line (summaryMsg copied linked),
                Event.writeSnapshot ⟨configHash, inputFileVersions⟩],
              Except.ok ())

/-- The transfer set the run computes (the value of `copyDescriptorsWithWork`
at line 227), extracted from the same pipeline stages `copyFilesInner` runs. -/
def transferSet (env : Env) (descs : List (FsPath × CopyDescriptor)) (cfg : String) :
    Except RunError (List CopyDescriptor) :=
  match hashInputs env (allInputFilesOf descs) with
  | (_, Except.error e) => Except.error e
  | (_, Except.ok versions) =>
    selectWork (effectiveOldInfo env.priorSnapshot cfg) versions (descs.map fun kv => kv.2)

/-- Model of `JSON.stringify(copyOperation)` (line 97): a canonical rendering
of the operation's configuration fields, with omitted optional fields omitted
from the output; the externally-resolved `sourceFiles` are not part of the
serialized record. -/
def serializeOp (op : CopyOperation) : String :=
  "sourcePath:" ++ pathStr op.sourcePath ++
    ";destinationFolders:" ++ String.intercalate "," (op.destinationFolders.map pathStr) ++
    ";includeGlobs:" ++ String.intercalate "," op.includeGlobs ++
    ";excludeGlobs:" ++ String.intercalate "," op.excludeGlobs ++
    (match op.flatten with
     | none => ""
     | some b => ";flatten:" ++ toString b) ++
    (match op.hardlink with
     | none => ""
     | some b => ";hardlink:" ++ toString b)

/-- The configuration fingerprint (lines 95-99): the digest of the
concatenated serializations of the operations, in order. -/
def configHashOf (env : Env) (ops : List CopyOperation) : String :=
  env.hashString (String.join (ops.map serializeOp))

/-- `copyFilesAsync` (lines 89-107): fingerprint the configuration, resolve
the descriptor map (a conflict rejects the run before any transfer I/O), then
run the incremental copy. -/
def copyFilesAsync (env : Env) (copyOperations : List CopyOperation) :
    List Event × Except RunError Unit :=
  match getCopyDescriptors copyOperations with
  | Except.error e => ([], Except.error e)
  | Except.ok m => copyFilesInner env m (configHashOf env copyOperations)

/-- The source-to-hash mapping a fully successful run records. -/
def versionsOf (env : Env) (copyDescriptors : List (FsPath × CopyDescriptor)) :
    List (FsPath × String) :=
  (allInputFilesOf copyDescriptors).map fun p => (p, env.hashString ((env.fileContent p).getD ""))

/-- The snapshot a fully successful run persists. -/
def snapshotOf (env : Env) (copyDescriptors : List (FsPath × CopyDescriptor))
    (configHash : String) : IIncrementalBuildInfo :=
  ⟨configHash, versionsOf env copyDescriptors⟩

/-- The transfer set as a filter, under the success preconditions. -/
def workOf (env : Env) (descs : List (FsPath × CopyDescriptor)) (cfg : String) :
    List CopyDescriptor :=
  (descs.map fun kv => kv.2).filter
    fun d => !(upToDate (effectiveOldInfo env.priorSnapshot cfg) (versionsOf env descs) d)

/-- Whether an event is a filesystem transfer (copy or hardlink). -/
def Event.isTransfer : Event → Bool
  | Event.copyFile _ _ => true
  | Event.hardLink _ _ => true
  | _ => false

/-- Whether an event is a snapshot write. -/
def Event.isWriteSnapshot : Event → Bool
  | Event.writeSnapshot _ => true
  | _ => false

/-! ### Concrete instances (the spec's two-file scenario, section 8) -/

/-- The scenario source file `src/a.txt`. -/
def fileA : FsPath := ["src", "a.txt"]

/-- The scenario source file `src/b.txt`. -/
def fileB : FsPath := ["src", "b.txt"]

/-- A concrete stand-in for the abstract digest, never empty. -/
def hashFnW : String → String := fun s => "H" ++ s

/-- The scenario operation: copy `*.txt` from `src` to `out`, no flatten, no
hardlink; glob resolution found `a.txt` and `b.txt`. -/
def opW : CopyOperation :=
  { sourcePath := ["src"], destinationFolders := [["out"]], includeGlobs := ["*.txt"],
    excludeGlobs := [], flatten := none, hardlink := none,
    sourceFiles := [fileA, fileB] }

/-- A second operation that claims the same destination `out/a.txt` from a
different source folder. -/
def opConf : CopyOperation :=
  { opW with sourcePath := ["src2"], sourceFiles := [["src2", "a.txt"]] }

/-- A flattening operation rooted at `root`. -/
def opWflat : CopyOperation := { opW with flatten := some true, sourcePath := ["root"] }

/-- Concrete filesystem: `a.txt` holds "hello", `b.txt` holds "world", and
every other path reads as an empty file. -/
def fsW : FsPath → Option String := fun p =>
  if p = fileA then some "hello" else if p = fileB then some "world" else some ""

/-- First-run environment: no prior snapshot, all transfers succeed. -/
def envW : Env :=
  { priorSnapshot := none, fileContent := fsW, hashString := hashFnW, copyOk := fun _ => true }

/-- The resolved descriptor for `a.txt`. -/
def dA : CopyDescriptor :=
  { sourcePath := fileA, destinationPath := ["out", "a.txt"], hardlink := false }

/-- The resolved descriptor for `b.txt`. -/
def dB : CopyDescriptor :=
  { sourcePath := fileB, destinationPath := ["out", "b.txt"], hardlink := false }

/-- The resolved destination map of the scenario. -/
def descsW : List (FsPath × CopyDescriptor) :=
  [(["out", "a.txt"], dA), (["out", "b.txt"], dB)]

/-- An environment in which every file read fails. -/
def envBad : Env :=
  { priorSnapshot := none, fileContent := fun _ => none, hashString := hashFnW,
    copyOk := fun _ => true }

/-- The snapshot the scenario's first run persists. -/
def biW : IIncrementalBuildInfo := snapshotOf envW descsW (configHashOf envW [opW])

/-- Second-run environment: the first run's snapshot is now the prior one. -/
def envSecond : Env := { envW with priorSnapshot := some biW }

/-! ### Basic lemmas about the auxiliary structures -/

lemma mem_dedupAux (l : List FsPath) :
    ∀ (seen : List FsPath) (p : FsPath), p ∈ dedupAux seen l ↔ p ∈ l ∧ p ∉ seen := by
  induction l with
  | nil => intro seen p; simp [dedupAux]
  | cons q qs ih =>
    intro seen p
    by_cases hq : q ∈ seen
    · rw [dedupAux, if_pos hq, ih]
      constructor
      · rintro ⟨hp, hns⟩; exact ⟨List.mem_cons_of_mem _ hp, hns⟩
      · rintro ⟨hp, hns⟩
        rcases List.mem_cons.mp hp with h | h
        · subst h; exact absurd hq hns
        · exact ⟨h, hns⟩
    · rw [dedupAux, if_neg hq]
      constructor
      · intro hp
        rcases List.mem_cons.mp hp with h | h
        · subst h; exact ⟨List.mem_cons_self _ _, hq⟩
        · rcases (ih _ _).mp h with ⟨hp', hns⟩
          refine ⟨List.mem_cons_of_mem _ hp', fun hs => hns (List.mem_cons_of_mem _ hs)⟩
      · rintro ⟨hp, hns⟩
        rcases List.mem_cons.mp hp with h | h
        · subst h; exact List.mem_cons_self _ _
        · by_cases hpq : p = q
          · subst hpq; exact List.mem_cons_self _ _
          · refine List.mem_cons_of_mem _ ((ih _ _).mpr ⟨h, ?_⟩)
            intro hs
            rcases List.mem_cons.mp hs with h' | h'
            · exact hpq h'
            · exact hns h'

lemma mem_dedupPaths (l : List FsPath) (p : FsPath) : p ∈ dedupPaths l ↔ p ∈ l := by
  rw [dedupPaths, mem_dedupAux]; simp

lemma lookupMap_map {α : Type} (g : FsPath → α) :
    ∀ (ps : List FsPath) (p : FsPath), p ∈ ps →
      lookupMap (ps.map fun q => (q, g q)) p = some (g p) := by
  intro ps
  induction ps with
  | nil => intro p hp; cases hp
  | cons q qs ih =>
    intro p hp
    rcases List.mem_cons.mp hp with h | h
    · subst h; simp [lookupMap]
    · by_cases hqp : q = p
      · subst hqp; simp [lookupMap]
      · simpa [lookupMap, hqp] using ih p h

lemma lookupMap_append {α : Type} (kv : FsPath × α) :
    ∀ (m : List (FsPath × α)) (k : FsPath),
      lookupMap (m ++ [kv]) k =
        match lookupMap m k with
        | some v => some v
        | none => if kv.1 = k then some kv.2 else none := by
  intro m
  induction m with
  | nil => intro k; simp [lookupMap]
  | cons e es ih =>
    intro k
    by_cases hk : e.1 = k
    · simp [lookupMap, hk]
    · simpa [lookupMap, hk] using ih k

/-! ### Stage lemmas: hashing -/

lemma hashInputs_ok (env : Env) :
    ∀ ps : List FsPath, (∀ p ∈ ps, (env.fileContent p).isSome) →
      hashInputs env ps = (ps.map Event.hashFile,
        Except.ok (ps.map fun p => (p, env.hashString ((env.fileContent p).getD "")))) := by
  intro ps
  induction ps with
  | nil => intro _; rfl
  | cons p rest ih =>
    intro h
    obtain ⟨c, hc⟩ := Option.isSome_iff_exists.mp (h p (List.mem_cons_self _ _))
    rw [hashInputs, hc, ih fun q hq => h q (List.mem_cons_of_mem _ hq)]
    simp [hc]

lemma hashInputs_events (env : Env) :
    ∀ ps : List FsPath, ∀ ev ∈ (hashInputs env ps).1, ∃ p, ev = Event.hashFile p := by
  intro ps
  induction ps with
  | nil => intro ev hev; cases hev
  | cons p rest ih =>
    intro ev hev
    rw [hashInputs] at hev
    rcases hc : env.fileContent p with _ | c
    · rw [hc] at hev
      rcases List.mem_cons.mp hev with h | h
      · exact ⟨p, h⟩
      · cases h
    · rw [hc] at hev
      rcases hrec : hashInputs env rest with ⟨evs, r⟩
      rw [hrec] at hev
      have hevs : ∀ ev ∈ evs, ∃ q, ev = Event.hashFile q := by
        intro ev' hev'; exact ih ev' (by rw [hrec]; exact hev')
      cases r with
      | error e =>
        rcases List.mem_cons.mp hev with h | h
        · exact ⟨p, h⟩
        · exact hevs ev h
      | ok rest' =>
        rcases List.mem_cons.mp hev with h | h
        · exact ⟨p, h⟩
        · exact hevs ev h

/-! ### Stage lemmas: the discard check -/

lemma effectiveOldEvents_shape (prior : Option IIncrementalBuildInfo) (cfg : String) :
    ∀ ev ∈ effectiveOldEvents prior cfg, ev = Event.verboseLine discardMsg := by
  intro ev hev
  cases prior with
  | none => cases hev
  | some bi =>
    rw [effectiveOldEvents] at hev
    by_cases h : bi.configHash = cfg
    · rw [if_pos h] at hev; cases hev
    · rw [if_neg h] at hev
      rcases List.mem_cons.mp hev with h' | h'
      · exact h'
      · cases h'

/-! ### Stage lemmas: the diff -/

lemma selectWork_ok (old : Option IIncrementalBuildInfo) (versions : List (FsPath × String)) :
    ∀ l : List CopyDescriptor,
      (∀ d ∈ l, ∃ hsh, lookupMap versions d.sourcePath = some hsh ∧ hsh ≠ "") →
      selectWork old versions l = Except.ok (l.filter fun d => !(upToDate old versions d)) := by
  intro l
  induction l with
  | nil => intro _; rfl
  | cons d ds ih =>
    intro h
    obtain ⟨hsh, hlk, hne⟩ := h d (List.mem_cons_self _ _)
    simp only [selectWork, hlk, if_neg hne,
      ih fun d' hd' => h d' (List.mem_cons_of_mem _ hd')]
    by_cases hskip : (old.bind fun bi => lookupMap bi.inputFileVersions d.sourcePath) = some hsh
    · have hut : upToDate old versions d = true := by
        simp only [upToDate, hlk]; exact decide_eq_true hskip
      simp [hskip, List.filter_cons, hut]
    · have hut : upToDate old versions d = false := by
        simp only [upToDate, hlk]; exact decide_eq_false hskip
      simp [hskip, List.filter_cons, hut]

/-! ### Stage lemmas: the transfer loop -/

lemma transferEvent_isTransfer (d : CopyDescriptor) : (transferEvent d).isTransfer = true := by
  rw [transferEvent]
  by_cases h : d.hardlink
  · rw [if_pos h]; rfl
  · rw [if_neg h]; rfl

lemma transferLoop_ok (env : Env) :
    ∀ l : List CopyDescriptor, (∀ d ∈ l, env.copyOk d = true) →
      transferLoop env l =
        (l.foldr (fun d acc => transferEvent d :: transferVerbose d :: acc) [],
          Except.ok (l.countP (fun d => !d.hardlink), l.countP (fun d => d.hardlink))) := by
  intro l
  induction l with
  | nil => intro _; rfl
  | cons d ds ih =>
    intro h
    rw [transferLoop, if_pos (h d (List.mem_cons_self _ _)),
      ih fun d' hd' => h d' (List.mem_cons_of_mem _ hd')]
    by_cases hd : d.hardlink
    · simp [List.countP_cons, hd]
    · simp [List.countP_cons, hd]

lemma transferLoop_counts (env : Env) :
    ∀ (l : List CopyDescriptor) (evs : List Event) (c k : Nat),
      transferLoop env l = (evs, Except.ok (c, k)) →
      c = l.countP (fun d => !d.hardlink) ∧ k = l.countP (fun d => d.hardlink) := by
  intro l
  induction l with
  | nil =>
    intro evs c k h
    rw [transferLoop] at h
    simp only [Prod.mk.injEq, Except.ok.injEq] at h
    simp [← h.2.1, ← h.2.2]
  | cons d ds ih =>
    intro evs c k h
    by_cases hok : env.copyOk d
    · rcases hrec : transferLoop env ds with ⟨evs', r⟩
      cases r with
      | error e =>
        rw [transferLoop, if_pos hok, hrec] at h
        simp at h
      | ok ck =>
        rcases ck with ⟨c', k'⟩
        obtain ⟨hc', hk'⟩ := ih evs' c' k' hrec
        rw [transferLoop, if_pos hok, hrec] at h
        by_cases hd : d.hardlink
        · simp only [hd, if_pos, Prod.mk.injEq, Except.ok.injEq, if_true] at h
          obtain ⟨-, hck, hkk⟩ := h
          simp [← hck, ← hkk, List.countP_cons, hd, hc', hk']
        · simp only [hd, Prod.mk.injEq, Except.ok.injEq, if_false, Bool.false_eq_true,
            if_neg] at h
          obtain ⟨-, hck, hkk⟩ := h
          simp [← hck, ← hkk, List.countP_cons, hd, hc', hk']
    · rw [transferLoop, if_neg hok] at h
      simp at h

lemma transferLoop_events (env : Env) :
    ∀ l : List CopyDescriptor, ∀ ev ∈ (transferLoop env l).1,
      ev.isWriteSnapshot = false ∧ (∀ s, ev ≠ Event.line s) ∧ ev ≠ Event.readSnapshot := by
  intro l
  induction l with
  | nil => intro ev hev; cases hev
  | cons d ds ih =>
    have hte : (transferEvent d).isWriteSnapshot = false ∧
        (∀ s, transferEvent d ≠ Event.line s) ∧ transferEvent d ≠ Event.readSnapshot := by
      rw [transferEvent]
      by_cases hd : d.hardlink
      · rw [if_pos hd]; refine ⟨rfl, fun s h => ?_, fun h => ?_⟩ <;> cases h
      · rw [if_neg hd]; refine ⟨rfl, fun s h => ?_, fun h => ?_⟩ <;> cases h
    have htv : (transferVerbose d).isWriteSnapshot = false ∧
        (∀ s, transferVerbose d ≠ Event.line s) ∧ transferVerbose d ≠ Event.readSnapshot := by
      rw [transferVerbose]
      refine ⟨rfl, fun s h => ?_, fun h => ?_⟩ <;> cases h
    intro ev hev
    rw [transferLoop] at hev
    by_cases hok : env.copyOk d
    · rw [if_pos hok] at hev
      rcases hrec : transferLoop env ds with ⟨evs', r⟩
      rw [hrec] at hev
      have hevs : ∀ ev ∈ evs', ev.isWriteSnapshot = false ∧
          (∀ s, ev ≠ Event.line s) ∧ ev ≠ Event.readSnapshot := by
        intro ev' hev'; exact ih ev' (by rw [hrec]; exact hev')
      cases r with
      | error e =>
        rcases List.mem_cons.mp hev with h | h
        · subst h; exact hte
        rcases List.mem_cons.mp h with h' | h'
        · subst h'; exact htv
        · exact hevs ev h'
      | ok ck =>
        rcases ck with ⟨c', k'⟩
        rcases List.mem_cons.mp hev with h | h
        · subst h; exact hte
        rcases List.mem_cons.mp h with h' | h'
        · subst h'; exact htv
        · exact hevs ev h'
    · rw [if_neg hok] at hev
      rcases List.mem_cons.mp hev with h | h
      · subst h; exact hte
      · cases h

/-! ### The success-path normal forms of the pipeline stages -/

lemma sourcePath_mem_allInputFilesOf (descs : List (FsPath × CopyDescriptor))
    (d : CopyDescriptor) (hd : d ∈ descs.map fun kv => kv.2) :
    d.sourcePath ∈ allInputFilesOf descs := by
  rw [allInputFilesOf, mem_dedupPaths]
  rcases List.mem_map.mp hd with ⟨kv, hkv, hrfl⟩
  exact List.mem_map.mpr ⟨kv, hkv, by rw [hrfl]⟩

lemma lookup_versionsOf (env : Env) (descs : List (FsPath × CopyDescriptor))
    (d : CopyDescriptor) (hd : d ∈ descs.map fun kv => kv.2) :
    lookupMap (versionsOf env descs) d.sourcePath =
      some (env.hashString ((env.fileContent d.sourcePath).getD "")) := by
  rw [versionsOf]
  exact lookupMap_map _ _ _ (sourcePath_mem_allInputFilesOf descs d hd)

lemma hashInputs_all (env : Env) (descs : List (FsPath × CopyDescriptor))
    (hread : ∀ p, (env.fileContent p).isSome) :
    hashInputs env (allInputFilesOf descs) =
      ((allInputFilesOf descs).map Event.hashFile, Except.ok (versionsOf env descs)) := by
  rw [hashInputs_ok env _ fun p _ => hread p, versionsOf]

lemma selectWork_all (env : Env) (descs : List (FsPath × CopyDescriptor)) (cfg : String)
    (hhash : ∀ s, env.hashString s ≠ "") :
    selectWork (effectiveOldInfo env.priorSnapshot cfg) (versionsOf env descs)
      (descs.map fun kv => kv.2) = Except.ok (workOf env descs cfg) := by
  rw [workOf]
  refine selectWork_ok _ _ _ fun d hd => ⟨_, lookup_versionsOf env descs d hd, hhash _⟩

lemma transferSet_all (env : Env) (descs : List (FsPath × CopyDescriptor)) (cfg : String)
    (hread : ∀ p, (env.fileContent p).isSome) (hhash : ∀ s, env.hashString s ≠ "") :
    transferSet env descs cfg = Except.ok (workOf env descs cfg) := by
  rw [transferSet, hashInputs_all env descs hread]
  exact selectWork_all env descs cfg hhash

lemma upToDate_iff (env : Env) (descs : List (FsPath × CopyDescriptor)) (cfg : String)
    (d : CopyDescriptor) (c : String) (hd : d ∈ descs.map fun kv => kv.2)
    (hc : env.fileContent d.sourcePath = some c) :
    upToDate (effectiveOldInfo env.priorSnapshot cfg) (versionsOf env descs) d = true ↔
      ∃ bi, env.priorSnapshot = some bi ∧ bi.configHash = cfg ∧
        lookupMap bi.inputFileVersions d.sourcePath = some (env.hashString c) := by
  have hlk := lookup_versionsOf env descs d hd
  rw [hc] at hlk
  simp only [upToDate, hlk, Option.getD_some, decide_eq_true_eq]
  cases hp : env.priorSnapshot with
  | none => simp [effectiveOldInfo, hp]
  | some bi =>
    by_cases hcfg : bi.configHash = cfg
    · simp [effectiveOldInfo, hp, hcfg]
    · simp [effectiveOldInfo, hp, hcfg]

/-! ### Lemmas about the destination-path computation -/

lemma pathRelative_append (root rest : FsPath) : pathRelative root (root ++ rest) = rest := by
  induction root with
  | nil => rfl
  | cons f fs ih => simpa [pathRelative] using ih

lemma resolveSegs_no_parent (rel : List String) :
    ∀ base : FsPath, parentSeg ∉ rel → resolveSegs base rel = base ++ rel := by
  induction rel with
  | nil => intro base _; simp [resolveSegs]
  | cons s ss ih =>
    intro base h
    have hs : s ≠ parentSeg := fun hseq => h (hseq ▸ List.mem_cons_self _ _)
    have hss : parentSeg ∉ ss := fun hmem => h (List.mem_cons_of_mem _ hmem)
    rw [resolveSegs, List.foldl_cons, if_neg hs]
    have := ih (base ++ [s]) hss
    rw [resolveSegs] at this
    rw [this]
    simp

lemma getLast?_append_singleton (l : List String) (a : String) :
    (l ++ [a]).getLast? = some a := by simp

/-! ### Lemmas about the destination map construction -/

lemma insertDescriptor_preserves (m m' : List (FsPath × CopyDescriptor)) (d : CopyDescriptor)
    (h : insertDescriptor m d = Except.ok m') (k : FsPath) (v : CopyDescriptor)
    (hk : lookupMap m k = some v) : lookupMap m' k = some v := by
  cases hlk : lookupMap m d.destinationPath with
  | some existing =>
    simp only [insertDescriptor, hlk] at h
    by_cases hsame : existing.sourcePath = d.sourcePath ∧ existing.hardlink = d.hardlink
    · rw [if_pos hsame] at h
      injection h with h; subst h; exact hk
    · rw [if_neg hsame] at h; cases h
  | none =>
    simp only [insertDescriptor, hlk] at h
    injection h with h; subst h
    rw [lookupMap_append, hk]

lemma insertDescriptor_entry (m m' : List (FsPath × CopyDescriptor)) (d : CopyDescriptor)
    (h : insertDescriptor m d = Except.ok m') :
    ∃ e, lookupMap m' d.destinationPath = some e ∧
      e.sourcePath = d.sourcePath ∧ e.hardlink = d.hardlink := by
  cases hlk : lookupMap m d.destinationPath with
  | some existing =>
    simp only [insertDescriptor, hlk] at h
    by_cases hsame : existing.sourcePath = d.sourcePath ∧ existing.hardlink = d.hardlink
    · rw [if_pos hsame] at h
      injection h with h; subst h
      exact ⟨existing, hlk, hsame⟩
    · rw [if_neg hsame] at h; cases h
  | none =>
    simp only [insertDescriptor, hlk] at h
    injection h with h; subst h
    refine ⟨d, ?_, rfl, rfl⟩
    rw [lookupMap_append, hlk]
    simp

lemma foldlM_insert_preserves :
    ∀ (l : List CopyDescriptor) (m m' : List (FsPath × CopyDescriptor)),
      l.foldlM insertDescriptor m = Except.ok m' →
      ∀ (k : FsPath) (v : CopyDescriptor), lookupMap m k = some v → lookupMap m' k = some v := by
  intro l
  induction l with
  | nil =>
    intro m m' h k v hk
    rw [List.foldlM_nil] at h
    injection h with h; subst h; exact hk
  | cons d ds ih =>
    intro m m' h k v hk
    rw [List.foldlM_cons] at h
    cases hins : insertDescriptor m d with
    | error e => rw [hins] at h; cases h
    | ok m1 =>
      rw [hins] at h
      exact ih m1 m' h k v (insertDescriptor_preserves m m1 d hins k v hk)

lemma foldlM_insert_mem :
    ∀ (l : List CopyDescriptor) (m m' : List (FsPath × CopyDescriptor)),
      l.foldlM insertDescriptor m = Except.ok m' →
      ∀ d ∈ l, ∃ e, lookupMap m' d.destinationPath = some e ∧
        e.sourcePath = d.sourcePath ∧ e.hardlink = d.hardlink := by
  intro l
  induction l with
  | nil => intro m m' _ d hd; cases hd
  | cons d0 ds ih =>
    intro m m' h d hd
    rw [List.foldlM_cons] at h
    cases hins : insertDescriptor m d0 with
    | error e => rw [hins] at h; cases h
    | ok m1 =>
      rw [hins] at h
      rcases List.mem_cons.mp hd with h' | h'
      · subst h'
        obtain ⟨e, he, hs, hh⟩ := insertDescriptor_entry m m1 d hins
        exact ⟨e, foldlM_insert_preserves ds m1 m' h _ e he, hs, hh⟩
      · exact ih m1 m' h d h'

lemma foldlM_insert_redundant :
    ∀ (l : List CopyDescriptor) (m : List (FsPath × CopyDescriptor)),
      (∀ d ∈ l, ∃ e, lookupMap m d.destinationPath = some e ∧
        e.sourcePath = d.sourcePath ∧ e.hardlink = d.hardlink) →
      l.foldlM insertDescriptor m = Except.ok m := by
  intro l
  induction l with
  | nil => intro m _; rfl
  | cons d ds ih =>
    intro m h
    obtain ⟨e, he, hs, hh⟩ := h d (List.mem_cons_self _ _)
    have hins : insertDescriptor m d = Except.ok m := by
      simp only [insertDescriptor, he]
      rw [if_pos ⟨hs, hh⟩]
    rw [List.foldlM_cons, hins]
    exact ih m fun d' hd' => h d' (List.mem_cons_of_mem _ hd')

/-! ### Monadic reduction helpers and run-level lemmas -/

lemma except_bind_ok {ε α β : Type} (a : α) (f : α → Except ε β) :
    (Except.ok a : Except ε α) >>= f = f a := rfl

lemma except_bind_error {ε α β : Type} (e : ε) (f : α → Except ε β) :
    (Except.error e : Except ε α) >>= f = Except.error e := rfl

lemma copyFilesInner_all (env : Env) (descs : List (FsPath × CopyDescriptor)) (cfg : String)
    (hread : ∀ p, (env.fileContent p).isSome) (hhash : ∀ s, env.hashString s ≠ "")
    (hne : descs ≠ []) :
    copyFilesInner env descs cfg =
      if workOf env descs cfg = [] then
        (Event.readSnapshot :: effectiveOldEvents env.priorSnapshot cfg ++
          (allInputFilesOf descs).map Event.hashFile ++ [Event.line nothingToDoMsg],
          Except.ok ())
      else
        match transferLoop env (workOf env descs cfg) with
        | (tEvs, Except.error e) =>
          (Event.readSnapshot :: effectiveOldEvents env.priorSnapshot cfg ++
            (allInputFilesOf descs).map Event.hashFile ++ tEvs, Except.error e)
        | (tEvs, Except.ok (copied, linked)) =>
          (Event.readSnapshot :: effectiveOldEvents env.priorSnapshot cfg ++
            (allInputFilesOf descs).map Event.hashFile ++ tEvs ++
            [Event.line (summaryMsg copied linked),
              Event.writeSnapshot (snapshotOf env descs cfg)], Except.ok ()) := by
  rw [copyFilesInner, if_neg hne]
  simp only [hashInputs_all env descs hread, selectWork_all env descs cfg hhash, snapshotOf]

lemma no_write_in_segments (prior : Option IIncrementalBuildInfo) (cfg : String)
    (env : Env) (ps : List FsPath) (extra : List Event)
    (hextra : ∀ ev ∈ extra, ev.isWriteSnapshot = false) :
    ∀ ev ∈ Event.readSnapshot :: effectiveOldEvents prior cfg ++ (hashInputs env ps).1 ++ extra,
      ev.isWriteSnapshot = false := by
  intro ev hev
  simp only [List.mem_cons, List.mem_append] at hev
  rcases hev with ((h | h) | h) | h
  · subst h; rfl
  · rw [effectiveOldEvents_shape prior cfg ev h]; rfl
  · obtain ⟨p, hp⟩ := hashInputs_events env ps ev h; subst hp; rfl
  · exact hextra ev h

lemma mapHashFile_no_write (ps : List FsPath) :
    ∀ ev ∈ ps.map Event.hashFile, ev.isWriteSnapshot = false := by
  intro ev hev
  obtain ⟨p, _, hp⟩ := List.mem_map.mp hev
  subst hp; rfl

lemma transferLoop_head (env : Env) (d : CopyDescriptor) (ds : List CopyDescriptor) :
    ∃ rest, (transferLoop env (d :: ds)).1 = transferEvent d :: rest := by
  rw [transferLoop]
  by_cases hok : env.copyOk d
  · rw [if_pos hok]
    rcases transferLoop env ds with ⟨evs, r⟩
    cases r with
    | error e => exact ⟨_, rfl⟩
    | ok ck => rcases ck with ⟨c, k⟩; exact ⟨_, rfl⟩
  · rw [if_neg hok]; exact ⟨_, rfl⟩

lemma writeSnapshot_mem_ok (env : Env) (descs : List (FsPath × CopyDescriptor)) (cfg : String)
    (bi : IIncrementalBuildInfo)
    (hbi : Event.writeSnapshot bi ∈ (copyFilesInner env descs cfg).1) :
    (copyFilesInner env descs cfg).2 = Except.ok () := by
  by_cases hne : descs = []
  · subst hne; simp [copyFilesInner] at hbi
  · rw [copyFilesInner, if_neg hne] at hbi ⊢
    rcases hh : hashInputs env (allInputFilesOf descs) with ⟨hEvs, r⟩
    have hshape : ∀ ev ∈ hEvs, ∃ p, ev = Event.hashFile p := by
      intro ev hev
      exact hashInputs_events env (allInputFilesOf descs) ev (by rw [hh]; exact hev)
    cases r with
    | error e =>
      exfalso
      simp only [hh, List.mem_cons, List.mem_append] at hbi
      rcases hbi with (h | h) | h
      · cases h
      · have := effectiveOldEvents_shape env.priorSnapshot cfg _ h; cases this
      · obtain ⟨p, hp⟩ := hshape _ h; cases hp
    | ok versions =>
      simp only [hh] at hbi ⊢
      cases hsw : selectWork (effectiveOldInfo env.priorSnapshot cfg) versions
          (descs.map fun kv => kv.2) with
      | error e =>
        exfalso
        simp only [hsw, List.mem_cons, List.mem_append] at hbi
        rcases hbi with (h | h) | h
        · cases h
        · have := effectiveOldEvents_shape env.priorSnapshot cfg _ h; cases this
        · obtain ⟨p, hp⟩ := hshape _ h; cases hp
      | ok work =>
        simp only [hsw] at hbi ⊢
        by_cases hw : work = []
        · exfalso
          rw [if_pos hw] at hbi
          simp only [List.mem_cons, List.mem_append, List.mem_singleton] at hbi
          rcases hbi with ((h | h) | h) | h | h
          · cases h
          · have := effectiveOldEvents_shape env.priorSnapshot cfg _ h; cases this
          · obtain ⟨p, hp⟩ := hshape _ h; cases hp
          · cases h
          · cases h
        · rw [if_neg hw] at hbi ⊢
          rcases ht : transferLoop env work with ⟨tEvs, r2⟩
          have htshape : ∀ ev ∈ tEvs, ev.isWriteSnapshot = false ∧
              (∀ s, ev ≠ Event.line s) ∧ ev ≠ Event.readSnapshot := by
            intro ev hev
            exact transferLoop_events env work ev (by rw [ht]; exact hev)
          cases r2 with
          | error e =>
            exfalso
            simp only [ht, List.mem_cons, List.mem_append] at hbi
            rcases hbi with ((h | h) | h) | h
            · cases h
            · have := effectiveOldEvents_shape env.priorSnapshot cfg _ h; cases this
            · obtain ⟨p, hp⟩ := hshape _ h; cases hp
            · have := (htshape _ h).1; cases this
          | ok ck => rcases ck with ⟨c, k⟩; simp only [ht]

lemma writeSnapshot_unique (env : Env) (descs : List (FsPath × CopyDescriptor)) (cfg : String)
    (hread : ∀ p, (env.fileContent p).isSome) (hhash : ∀ s, env.hashString s ≠ "")
    (bi : IIncrementalBuildInfo)
    (hbi : Event.writeSnapshot bi ∈ (copyFilesInner env descs cfg).1) :
    bi = snapshotOf env descs cfg := by
  by_cases hne : descs = []
  · subst hne; simp [copyFilesInner] at hbi
  · rw [copyFilesInner_all env descs cfg hread hhash hne] at hbi
    by_cases hw : workOf env descs cfg = []
    · exfalso
      rw [if_pos hw] at hbi
      simp only [List.mem_cons, List.mem_append, List.mem_singleton] at hbi
      rcases hbi with ((h | h) | h) | h | h
      · cases h
      · have := effectiveOldEvents_shape env.priorSnapshot cfg _ h; cases this
      · obtain ⟨p, _, hp⟩ := List.mem_map.mp h; cases hp
      · cases h
      · cases h
    · rw [if_neg hw] at hbi
      rcases ht : transferLoop env (workOf env descs cfg) with ⟨tEvs, r2⟩
      have htshape : ∀ ev ∈ tEvs, ev.isWriteSnapshot = false ∧
          (∀ s, ev ≠ Event.line s) ∧ ev ≠ Event.readSnapshot := by
        intro ev hev
        exact transferLoop_events env (workOf env descs cfg) ev (by rw [ht]; exact hev)
      cases r2 with
      | error e =>
        exfalso
        simp only [ht, List.mem_cons, List.mem_append] at hbi
        rcases hbi with ((h | h) | h) | h
        · cases h
        · have := effectiveOldEvents_shape env.priorSnapshot cfg _ h; cases this
        · obtain ⟨p, _, hp⟩ := List.mem_map.mp h; cases hp
        · have := (htshape _ h).1; cases this
      | ok ck =>
        rcases ck with ⟨c, k⟩
        simp only [ht, List.mem_cons, List.mem_append, List.mem_singleton] at hbi
        rcases hbi with (((h | h) | h) | h) | h
        · cases h
        · have := effectiveOldEvents_shape env.priorSnapshot cfg _ h; cases this
        · obtain ⟨p, _, hp⟩ := List.mem_map.mp h; cases hp
        · have := (htshape _ h).1; cases this
        · rcases h with h | h | h
          · cases h
          · injection h with h
          · cases h

lemma mem_descriptorsOfOperation (op : CopyOperation) (dd : CopyDescriptor) :
    dd ∈ descriptorsOfOperation op ↔
      ∃ destF ∈ op.destinationFolders, ∃ src ∈ op.sourceFiles,
        dd = { sourcePath := src, destinationPath := resolvedDestinationPath op destF src,
               hardlink := op.hardlink.getD false } := by
  rw [descriptorsOfOperation]
  induction op.destinationFolders with
  | nil => simp
  | cons destF rest ih =>
    simp only [List.foldr_cons, List.mem_append, List.mem_map, List.mem_cons, ih, eq_comm]
    constructor
    · rintro (h | ⟨f, hf, h⟩)
      · obtain ⟨src, hsrc, hdd⟩ := h
        exact ⟨destF, Or.inl rfl, src, hsrc, by rw [hdd]⟩
      · exact ⟨f, Or.inr hf, h⟩
    · rintro ⟨f, hf | hf, h⟩
      · subst hf
        obtain ⟨src, hsrc, hdd⟩ := h
        exact Or.inl ⟨src, hsrc, by rw [hdd]⟩
      · exact Or.inr ⟨f, hf, h⟩

lemma descriptorsOfOperation_hardlink_irrelevant (op : CopyOperation)
    (hnone : op.hardlink = none) :
    descriptorsOfOperation { op with hardlink := some false } = descriptorsOfOperation op := by
  simp [descriptorsOfOperation, resolvedDestinationPath, hnone]

lemma fsW_total : ∀ p, (fsW p).isSome := by
  intro p
  rw [fsW]
  by_cases h1 : p = fileA
  · rw [if_pos h1]; rfl
  · rw [if_neg h1]
    by_cases h2 : p = fileB
    · rw [if_pos h2]; rfl
    · rw [if_neg h2]; rfl

lemma hashFnW_ne : ∀ s, hashFnW s ≠ "" := by
  intro s h
  have hlen := congrArg String.length h
  rw [hashFnW] at hlen
  simp [String.length_append] at hlen
  exact (by decide : ¬("H".length = 0)) hlen.1

lemma envW_copyOk : ∀ d, envW.copyOk d = true := fun _ => rfl

/-! ### The claims -/

/-- C1: under the run's success preconditions (every source readable, digests
nonempty), a resolved descriptor is excluded from the computed transfer set if
and only if a prior snapshot survives the fingerprint check (it exists and its
`configHash` equals the current one) and records, for the descriptor's source
path, exactly the newly computed content hash; in every other case the
descriptor is included. -/
theorem c1_skip_iff_hash_match (env : Env) (descs : List (FsPath × CopyDescriptor))
    (cfg : String) (d : CopyDescriptor) (c : String)
    (hread : ∀ p, (env.fileContent p).isSome)
    (hhash : ∀ s, env.hashString s ≠ "")
    (hd : d ∈ descs.map fun kv => kv.2)
    (hc : env.fileContent d.sourcePath = some c) :
    ∃ work, transferSet env descs cfg = Except.ok work ∧
      (d ∉ work ↔ ∃ bi, env.priorSnapshot = some bi ∧ bi.configHash = cfg ∧
        lookupMap bi.inputFileVersions d.sourcePath = some (env.hashString c)) := by
  refine ⟨workOf env descs cfg, transferSet_all env descs cfg hread hhash, ?_⟩
  rw [← upToDate_iff env descs cfg d c hd hc, workOf]
  constructor
  · intro hnot
    by_contra hfalse
    have hfb : upToDate (effectiveOldInfo env.priorSnapshot cfg) (versionsOf env descs) d
        = false := Bool.eq_false_iff.mpr hfalse
    exact hnot (List.mem_filter.mpr ⟨hd, by rw [hfb]; rfl⟩)
  · intro htrue hmem
    have hpred := (List.mem_filter.mp hmem).2
    rw [htrue] at hpred
    exact (by decide : ¬((!true) = true)) hpred

/-- C1 witness: in the scenario's first run (no prior snapshot) the descriptor
for `a.txt` is included in the transfer set. -/
theorem c1_skip_iff_hash_match_witness :
    ∃ work, transferSet envW descsW "cfg" = Except.ok work ∧
      (dA ∉ work ↔ ∃ bi, envW.priorSnapshot = some bi ∧ bi.configHash = "cfg" ∧
        lookupMap bi.inputFileVersions dA.sourcePath = some (envW.hashString "hello")) :=
  c1_skip_iff_hash_match envW descsW "cfg" dA "hello" fsW_total hashFnW_ne (by decide) rfl

/-- C2: re-declaring a destination whose existing descriptor has the identical
source path and hardlink flag is a no-op leaving the map unchanged; a
differing source or hardlink flag always fails with a conflict error carrying
the destination path; and a resolution conflict rejects the whole run with an
empty event trace, so no transfer I/O has occurred. -/
theorem c2_destination_conflicts (m : List (FsPath × CopyDescriptor)) (d e : CopyDescriptor)
    (env : Env) (ops : List CopyOperation) (err : RunError)
    (hlook : lookupMap m d.destinationPath = some e) :
    ((e.sourcePath = d.sourcePath ∧ e.hardlink = d.hardlink) →
      insertDescriptor m d = Except.ok m) ∧
    ((e.sourcePath ≠ d.sourcePath ∨ e.hardlink ≠ d.hardlink) →
      insertDescriptor m d = Except.error (RunError.conflict d.destinationPath)) ∧
    (getCopyDescriptors ops = Except.error err →
      copyFilesAsync env ops = ([], Except.error err)) := by
  refine ⟨fun hsame => ?_, fun hdiff => ?_, fun herr => ?_⟩
  · simp only [insertDescriptor, hlook]
    rw [if_pos hsame]
  · simp only [insertDescriptor, hlook]
    rw [if_neg]
    rintro ⟨h1, h2⟩
    rcases hdiff with hne | hne
    · exact hne h1
    · exact hne h2
  · simp only [copyFilesAsync, herr]

/-- C2 witness: re-inserting the `a.txt` descriptor into the scenario map, and
the conflicting two-operation configuration rejecting with no events. -/
theorem c2_destination_conflicts_witness :
    ((dA.sourcePath = dA.sourcePath ∧ dA.hardlink = dA.hardlink) →
      insertDescriptor descsW dA = Except.ok descsW) ∧
    ((dA.sourcePath ≠ dA.sourcePath ∨ dA.hardlink ≠ dA.hardlink) →
      insertDescriptor descsW dA = Except.error (RunError.conflict dA.destinationPath)) ∧
    (getCopyDescriptors [opW, opConf] = Except.error (RunError.conflict ["out", "a.txt"]) →
      copyFilesAsync envW [opW, opConf] =
        ([], Except.error (RunError.conflict ["out", "a.txt"]))) :=
  c2_destination_conflicts descsW dA dA envW [opW, opConf]
    (RunError.conflict ["out", "a.txt"]) (by decide)

/-- C4: for a matched source `root ++ mid ++ [b]` under the operation's source
root, the resolved destination under destination folder `destF` is
`destF ++ [b]` (the basename) when `flatten` is set, and `destF ++ mid ++ [b]`
(the source-root-relative path) when it is not. -/
theorem c4_flatten_destination (op : CopyOperation) (destF root mid : FsPath) (b : String)
    (hroot : op.sourcePath = root) (hmid : parentSeg ∉ mid) (hb : b ≠ parentSeg) :
    (op.flatten.getD false = true →
      resolvedDestinationPath op destF (root ++ (mid ++ [b])) = destF ++ [b]) ∧
    (op.flatten.getD false = false →
      resolvedDestinationPath op destF (root ++ (mid ++ [b])) = destF ++ (mid ++ [b])) := by
  have hpb : parentSeg ∉ [b] := by
    intro hm
    rcases List.mem_singleton.mp hm with h
    exact hb h.symm
  have hnp : parentSeg ∉ mid ++ [b] := by
    intro hm
    rcases List.mem_append.mp hm with h | h
    · exact hmid h
    · exact hpb h
  constructor
  · intro hf
    rw [resolvedDestinationPath, hf, if_pos rfl, basenameSeg, ← List.append_assoc,
      getLast?_append_singleton, Option.getD_some, resolveSegs_no_parent [b] destF hpb]
  · intro hf
    rw [resolvedDestinationPath, hf]
    rw [if_neg (by decide : ¬(false = true)), hroot, pathRelative_append,
      resolveSegs_no_parent (mid ++ [b]) destF hnp]

/-- C4 witness: a source at `root/sub/a.txt` copied to destination folder `D`
lands at `D/a.txt` under the flattening operation. -/
theorem c4_flatten_destination_witness :
    (opWflat.flatten.getD false = true →
      resolvedDestinationPath opWflat ["D"] (["root"] ++ (["sub"] ++ ["a.txt"])) =
        ["D"] ++ ["a.txt"]) ∧
    (opWflat.flatten.getD false = false →
      resolvedDestinationPath opWflat ["D"] (["root"] ++ (["sub"] ++ ["a.txt"])) =
        ["D"] ++ (["sub"] ++ ["a.txt"])) :=
  c4_flatten_destination opWflat ["D"] ["root"] ["sub"] "a.txt" rfl (by decide) (by decide)

/-- C5: the configuration fingerprint depends only on the digest primitive and
the ordered operation list (two runs whose environments share the digest
compute the same fingerprint irrespective of snapshot, file contents, or
transfer outcomes), and a prior snapshot carrying the current fingerprint is
kept, with no discard message. -/
theorem c5_fingerprint_deterministic (env env2 : Env) (ops : List CopyOperation)
    (bi : IIncrementalBuildInfo)
    (hh : env.hashString = env2.hashString)
    (hprior : env.priorSnapshot = some bi)
    (hcfg : bi.configHash = configHashOf env ops) :
    configHashOf env ops = configHashOf env2 ops ∧
    effectiveOldInfo env.priorSnapshot (configHashOf env ops) = some bi ∧
    effectiveOldEvents env.priorSnapshot (configHashOf env ops) = [] := by
  refine ⟨by rw [configHashOf, configHashOf, hh], ?_, ?_⟩
  · rw [hprior]
    simp only [effectiveOldInfo]
    rw [if_pos hcfg]
  · rw [hprior]
    simp only [effectiveOldEvents]
    rw [if_pos hcfg]

/-- C5 witness: the second-run environment computes the same fingerprint as
the first and keeps the persisted snapshot. -/
theorem c5_fingerprint_deterministic_witness :
    configHashOf envSecond [opW] = configHashOf envW [opW] ∧
    effectiveOldInfo envSecond.priorSnapshot (configHashOf envSecond [opW]) = some biW ∧
    effectiveOldEvents envSecond.priorSnapshot (configHashOf envSecond [opW]) = [] :=
  c5_fingerprint_deterministic envSecond envW [opW] biW rfl rfl rfl

/-- C6: on every failed run: a resolution conflict, an unreadable source
during hashing, or a transfer error, no snapshot write event occurs; the
snapshot is only written after the whole transfer phase succeeds. -/
theorem c6_failure_preserves_snapshot (env : Env) (ops : List CopyOperation) (e : RunError)
    (herr : (copyFilesAsync env ops).2 = Except.error e) :
    ∀ bi, Event.writeSnapshot bi ∉ (copyFilesAsync env ops).1 := by
  intro bi hbi
  cases hg : getCopyDescriptors ops with
  | error e2 =>
    simp only [copyFilesAsync, hg] at hbi
    exact List.not_mem_nil _ hbi
  | ok descs =>
    simp only [copyFilesAsync, hg] at hbi herr
    have hok := writeSnapshot_mem_ok env descs (configHashOf env ops) bi hbi
    rw [hok] at herr
    simp at herr

/-- C6 witness: with every file read failing, the run rejects with a read
error and writes no snapshot. -/
theorem c6_failure_preserves_snapshot_witness :
    Event.writeSnapshot biW ∉ (copyFilesAsync envBad [opW]).1 :=
  c6_failure_preserves_snapshot envBad [opW] (RunError.readError fileA) rfl biW

/-- C9: an empty descriptor map makes the run return immediately with an empty
event trace: no snapshot read, no hashing, no snapshot write, and no summary
or nothing-to-do line; a nonempty map always reads the prior snapshot first,
and when its transfer set is empty the run does report nothing to do (and
still writes no snapshot). -/
theorem c9_empty_resolution_early_return (env : Env) (cfg : String)
    (descs : List (FsPath × CopyDescriptor)) :
    copyFilesInner env [] cfg = ([], Except.ok ()) ∧
    (descs ≠ [] → Event.readSnapshot ∈ (copyFilesInner env descs cfg).1) ∧
    (descs ≠ [] → transferSet env descs cfg = Except.ok [] →
      Event.line nothingToDoMsg ∈ (copyFilesInner env descs cfg).1 ∧
      ∀ bi, Event.writeSnapshot bi ∉ (copyFilesInner env descs cfg).1) := by
  refine ⟨by simp [copyFilesInner], fun hne => ?_, fun hne hset => ?_⟩
  · rw [copyFilesInner, if_neg hne]
    rcases hashInputs env (allInputFilesOf descs) with ⟨hEvs, r⟩
    cases r with
    | error e => simp
    | ok versions =>
      rcases hsel : selectWork (effectiveOldInfo env.priorSnapshot cfg) versions
          (descs.map fun kv => kv.2) with e | work
      · simp [hsel]
      · by_cases hw : work = []
        · simp [hsel, hw]
        · rcases htl : transferLoop env work with ⟨tEvs, r2⟩
          cases r2 with
          | error e => simp [hsel, hw, htl]
          | ok ck => rcases ck with ⟨c, k⟩; simp [hsel, hw, htl]
  · rcases hh : hashInputs env (allInputFilesOf descs) with ⟨hEvs, r⟩
    rw [transferSet] at hset
    have hshape : ∀ ev ∈ hEvs, ∃ p, ev = Event.hashFile p := by
      intro ev hev
      exact hashInputs_events env (allInputFilesOf descs) ev (by rw [hh]; exact hev)
    cases r with
    | error e =>
      rw [hh] at hset
      simp at hset
    | ok versions =>
      rw [hh] at hset
      have hsel : selectWork (effectiveOldInfo env.priorSnapshot cfg) versions
          (descs.map fun kv => kv.2) = Except.ok [] := hset
      have hcfi : copyFilesInner env descs cfg =
          (Event.readSnapshot :: effectiveOldEvents env.priorSnapshot cfg ++ hEvs ++
            [Event.line nothingToDoMsg], Except.ok ()) := by
        rw [copyFilesInner, if_neg hne]
        simp [hh, hsel]
      rw [hcfi]
      constructor
      · simp
      · intro bi hbi
        simp only [List.mem_cons, List.mem_append] at hbi
        rcases hbi with ((h | h) | h) | h | h
        · cases h
        · have := effectiveOldEvents_shape env.priorSnapshot cfg _ h; cases this
        · obtain ⟨p, hp⟩ := hshape _ h; cases hp
        · cases h
        · cases h

/-- C9 witness: the empty map returns silently; the scenario map reads the
snapshot; and the up-to-date second run reports nothing to do. -/
theorem c9_empty_resolution_early_return_witness :
    copyFilesInner envW [] "cfg" = ([], Except.ok ()) ∧
    Event.readSnapshot ∈ (copyFilesInner envW descsW "cfg").1 ∧
    Event.line nothingToDoMsg ∈
      (copyFilesInner envSecond descsW (configHashOf envW [opW])).1 :=
  ⟨(c9_empty_resolution_early_return envW "cfg" descsW).1,
   (c9_empty_resolution_early_return envW "cfg" descsW).2.1 (by decide),
   ((c9_empty_resolution_early_return envSecond (configHashOf envW [opW]) descsW).2.2
      (by decide) rfl).1⟩

/-- C10: an omitted `hardlink` flag resolves to `false` on every descriptor of
the operation; a `hardlink = false` descriptor is executed as a byte copy; and
re-declaring the operation with `hardlink` explicitly `false` instead of
omitted is an identical re-declaration: no conflict, map unchanged. -/
theorem c10_hardlink_default (op : CopyOperation) (env : Env) (d : CopyDescriptor)
    (m : List (FsPath × CopyDescriptor))
    (hnone : op.hardlink = none) (hd : d.hardlink = false)
    (hcopy : env.copyOk d = true) (hm : getCopyDescriptors [op] = Except.ok m) :
    (∀ dd ∈ descriptorsOfOperation op, dd.hardlink = false) ∧
    transferLoop env [d] =
      ([Event.copyFile d.sourcePath d.destinationPath,
        Event.verboseLine (copiedVerboseMsg d)], Except.ok (1, 0)) ∧
    getCopyDescriptors [op, { op with hardlink := some false }] = Except.ok m := by
  have hg : (descriptorsOfOperation op).foldlM insertDescriptor
      ([] : List (FsPath × CopyDescriptor)) = Except.ok m := by
    simp only [getCopyDescriptors, List.foldlM_cons, List.foldlM_nil] at hm
    cases hres : (descriptorsOfOperation op).foldlM insertDescriptor
        ([] : List (FsPath × CopyDescriptor)) with
    | error e =>
      rw [hres] at hm
      simp [except_bind_error] at hm
    | ok mm =>
      rw [hres] at hm
      rw [except_bind_ok] at hm
      exact hm
  refine ⟨fun dd hdd => ?_, ?_, ?_⟩
  · obtain ⟨f, hf, src, hsrc, hdd⟩ := (mem_descriptorsOfOperation op dd).mp hdd
    rw [hdd]
    simp [hnone]
  · rw [transferLoop, if_pos hcopy, transferLoop]
    simp [transferEvent, transferVerbose, hd]
  · have hmem := foldlM_insert_mem (descriptorsOfOperation op) [] m hg
    have hred : (descriptorsOfOperation op).foldlM insertDescriptor m = Except.ok m :=
      foldlM_insert_redundant (descriptorsOfOperation op) m hmem
    simp only [getCopyDescriptors, List.foldlM_cons, List.foldlM_nil,
      descriptorsOfOperation_hardlink_irrelevant op hnone, hg, except_bind_ok, hred]
    rfl

/-- C10 witness: the scenario operation omits `hardlink`; its descriptors are
plain copies, and adding an explicit `hardlink := false` duplicate changes
nothing. -/
theorem c10_hardlink_default_witness :
    (∀ dd ∈ descriptorsOfOperation opW, dd.hardlink = false) ∧
    transferLoop envW [dA] =
      ([Event.copyFile dA.sourcePath dA.destinationPath,
        Event.verboseLine (copiedVerboseMsg dA)], Except.ok (1, 0)) ∧
    getCopyDescriptors [opW, { opW with hardlink := some false }] = Except.ok descsW :=
  c10_hardlink_default opW envW dA descsW rfl rfl rfl rfl

lemma prefix_events_not_transfer (prior : Option IIncrementalBuildInfo) (cfg : String)
    (ps : List FsPath) :
    ∀ ev ∈ Event.readSnapshot :: effectiveOldEvents prior cfg ++ ps.map Event.hashFile ++
        [Event.line nothingToDoMsg], ev.isTransfer = false ∧ ev.isWriteSnapshot = false := by
  intro ev hev
  simp only [List.mem_cons, List.mem_append] at hev
  rcases hev with ((h | h) | h) | h | h
  · subst h; exact ⟨rfl, rfl⟩
  · rw [effectiveOldEvents_shape prior cfg ev h]; exact ⟨rfl, rfl⟩
  · obtain ⟨p, _, hp⟩ := List.mem_map.mp h; subst hp; exact ⟨rfl, rfl⟩
  · subst h; exact ⟨rfl, rfl⟩
  · cases h

/-- C3: with an unchanged operation list and unchanged source contents, any
snapshot the first run persists is exactly `snapshotOf`; and a second run
whose prior snapshot is that record performs zero transfer events, succeeds,
and (when any descriptors resolved) reports that there is nothing to do. -/
theorem c3_second_run_no_transfers (env : Env) (ops : List CopyOperation)
    (descs : List (FsPath × CopyDescriptor))
    (hdescs : getCopyDescriptors ops = Except.ok descs)
    (hread : ∀ p, (env.fileContent p).isSome)
    (hhash : ∀ s, env.hashString s ≠ "") :
    (∀ bi, Event.writeSnapshot bi ∈ (copyFilesAsync env ops).1 →
      bi = snapshotOf env descs (configHashOf env ops)) ∧
    (∀ ev ∈ (copyFilesAsync
        { env with priorSnapshot := some (snapshotOf env descs (configHashOf env ops)) }
        ops).1, ev.isTransfer = false) ∧
    (copyFilesAsync
        { env with priorSnapshot := some (snapshotOf env descs (configHashOf env ops)) }
        ops).2 = Except.ok () ∧
    (descs ≠ [] → Event.line nothingToDoMsg ∈ (copyFilesAsync
        { env with priorSnapshot := some (snapshotOf env descs (configHashOf env ops)) }
        ops).1) := by
  set env2 : Env :=
    { env with priorSnapshot := some (snapshotOf env descs (configHashOf env ops)) } with henv2
  have hcfg2 : configHashOf env2 ops = configHashOf env ops := rfl
  refine ⟨?_, ?_⟩
  · intro bi hbi
    simp only [copyFilesAsync, hdescs] at hbi
    exact writeSnapshot_unique env descs (configHashOf env ops) hread hhash bi hbi
  by_cases hne : descs = []
  · subst hne
    refine ⟨?_, ?_, ?_⟩
    · intro ev hev
      simp [copyFilesAsync, hdescs, copyFilesInner] at hev
    · simp [copyFilesAsync, hdescs, copyFilesInner]
    · intro h; exact absurd rfl h
  · have hw2 : workOf env2 descs (configHashOf env ops) = [] := by
      rw [workOf]
      refine List.filter_eq_nil_iff.mpr ?_
      intro d hd
      obtain ⟨c, hc⟩ := Option.isSome_iff_exists.mp (hread d.sourcePath)
      have hut : upToDate (effectiveOldInfo env2.priorSnapshot (configHashOf env ops))
          (versionsOf env2 descs) d = true := by
        rw [upToDate_iff env2 descs (configHashOf env ops) d c hd hc]
        refine ⟨snapshotOf env descs (configHashOf env ops), rfl, rfl, ?_⟩
        have hlk := lookup_versionsOf env descs d hd
        rw [hc] at hlk
        simpa [snapshotOf] using hlk
      simp [hut]
    have hall := copyFilesInner_all env2 descs (configHashOf env ops) hread hhash hne
    rw [if_pos hw2] at hall
    refine ⟨?_, ?_, ?_⟩
    · intro ev hev
      simp only [copyFilesAsync, hdescs, hcfg2, hall] at hev
      exact (prefix_events_not_transfer env2.priorSnapshot (configHashOf env ops)
        (allInputFilesOf descs) ev hev).1
    · simp only [copyFilesAsync, hdescs, hcfg2, hall]
    · intro _
      simp only [copyFilesAsync, hdescs, hcfg2, hall]
      simp

/-- C3 witness: in the scenario, the first run's persisted snapshot is `biW`,
and the second run performs no transfers and reports nothing to do. -/
theorem c3_second_run_no_transfers_witness :
    (∀ bi, Event.writeSnapshot bi ∈ (copyFilesAsync envW [opW]).1 →
      bi = snapshotOf envW descsW (configHashOf envW [opW])) ∧
    (∀ ev ∈ (copyFilesAsync
        { envW with priorSnapshot := some (snapshotOf envW descsW (configHashOf envW [opW])) }
        [opW]).1, ev.isTransfer = false) ∧
    (copyFilesAsync
        { envW with priorSnapshot := some (snapshotOf envW descsW (configHashOf envW [opW])) }
        [opW]).2 = Except.ok () ∧
    (descsW ≠ [] → Event.line nothingToDoMsg ∈ (copyFilesAsync
        { envW with priorSnapshot := some (snapshotOf envW descsW (configHashOf envW [opW])) }
        [opW]).1) :=
  c3_second_run_no_transfers envW [opW] descsW rfl fsW_total hashFnW_ne

/-- C7 counterexample to the claim as stated: a successful no-op completion
(nonempty descriptor set, empty transfer set) that reports nothing to do and
performs no snapshot write, although the claim requires the snapshot to be
(re)written after every successful completion including a no-op one. -/
theorem c7_noop_skips_write_counterexample :
    (copyFilesAsync envSecond [opW]).2 = Except.ok () ∧
    Event.line nothingToDoMsg ∈ (copyFilesAsync envSecond [opW]).1 ∧
    ((copyFilesAsync envSecond [opW]).1.filter fun ev => ev.isWriteSnapshot) = [] :=
  ⟨rfl, by decide, rfl⟩

/-- C7 (amended): after a successful completion that performed at least one
transfer, the engine writes the snapshot holding the current fingerprint and
the full current source-hash mapping (and every written snapshot equals it);
after a successful completion that performed no transfer, no snapshot is
written at all. -/
theorem c7_snapshot_write_policy (env : Env) (descs : List (FsPath × CopyDescriptor))
    (cfg : String)
    (hread : ∀ p, (env.fileContent p).isSome)
    (hhash : ∀ s, env.hashString s ≠ "")
    (hok : (copyFilesInner env descs cfg).2 = Except.ok ()) :
    (∀ bi, Event.writeSnapshot bi ∈ (copyFilesInner env descs cfg).1 →
      bi = snapshotOf env descs cfg) ∧
    ((∃ ev ∈ (copyFilesInner env descs cfg).1, ev.isTransfer = true) →
      Event.writeSnapshot (snapshotOf env descs cfg) ∈ (copyFilesInner env descs cfg).1) ∧
    ((∀ ev ∈ (copyFilesInner env descs cfg).1, ev.isTransfer = false) →
      ∀ bi, Event.writeSnapshot bi ∉ (copyFilesInner env descs cfg).1) := by
  refine ⟨fun bi hbi => writeSnapshot_unique env descs cfg hread hhash bi hbi, ?_, ?_⟩
  · by_cases hne : descs = []
    · subst hne
      rintro ⟨ev, hev, -⟩
      simp [copyFilesInner] at hev
    · rw [copyFilesInner_all env descs cfg hread hhash hne] at hok ⊢
      by_cases hw : workOf env descs cfg = []
      · rw [if_pos hw] at hok ⊢
        rintro ⟨ev, hev, htr⟩
        have := (prefix_events_not_transfer env.priorSnapshot cfg
          (allInputFilesOf descs) ev hev).1
        rw [htr] at this
        cases this
      · rw [if_neg hw] at hok ⊢
        rcases ht : transferLoop env (workOf env descs cfg) with ⟨tEvs, r2⟩
        cases r2 with
        | error e => simp only [ht] at hok; cases hok
        | ok ck =>
          rcases ck with ⟨c, k⟩
          simp only [ht]
          intro _
          simp
  · by_cases hne : descs = []
    · subst hne
      intro _ bi hbi
      simp [copyFilesInner] at hbi
    · rw [copyFilesInner_all env descs cfg hread hhash hne] at hok ⊢
      by_cases hw : workOf env descs cfg = []
      · rw [if_pos hw] at hok ⊢
        intro _ bi hbi
        have := (prefix_events_not_transfer env.priorSnapshot cfg
          (allInputFilesOf descs) (Event.writeSnapshot bi) hbi).2
        cases this
      · rw [if_neg hw] at hok ⊢
        rcases ht : transferLoop env (workOf env descs cfg) with ⟨tEvs, r2⟩
        cases r2 with
        | error e => simp only [ht] at hok; cases hok
        | ok ck =>
          rcases ck with ⟨c, k⟩
          simp only [ht]
          intro hall bi hbi
          obtain ⟨d, ds, hwds⟩ := List.exists_cons_of_ne_nil hw
          obtain ⟨rest, hrest⟩ := transferLoop_head env d ds
          rw [← hwds, ht] at hrest
          have hmem : transferEvent d ∈ Event.readSnapshot ::
              effectiveOldEvents env.priorSnapshot cfg ++
              (allInputFilesOf descs).map Event.hashFile ++ tEvs ++
              [Event.line (summaryMsg c k), Event.writeSnapshot (snapshotOf env descs cfg)] := by
            have : transferEvent d ∈ tEvs := by
              have h1 : tEvs = transferEvent d :: rest := hrest
              rw [h1]
              exact List.mem_cons_self _ _
            simp [List.mem_append, this]
          have := hall _ hmem
          rw [transferEvent_isTransfer] at this
          cases this

/-- C7 (amended) witness: the scenario's first run performs transfers and
writes exactly `snapshotOf`; the summary precedes the write. -/
theorem c7_snapshot_write_policy_witness :
    (∀ bi, Event.writeSnapshot bi ∈ (copyFilesInner envW descsW "cfg").1 →
      bi = snapshotOf envW descsW "cfg") ∧
    ((∃ ev ∈ (copyFilesInner envW descsW "cfg").1, ev.isTransfer = true) →
      Event.writeSnapshot (snapshotOf envW descsW "cfg") ∈
        (copyFilesInner envW descsW "cfg").1) ∧
    ((∀ ev ∈ (copyFilesInner envW descsW "cfg").1, ev.isTransfer = false) →
      ∀ bi, Event.writeSnapshot bi ∉ (copyFilesInner envW descsW "cfg").1) :=
  c7_snapshot_write_policy envW descsW "cfg" fsW_total hashFnW_ne rfl

/-- C8: the transfer phase reports exactly the number of non-hardlink
descriptors of the transfer set as copied and the number of hardlink
descriptors as linked; the run's summary line carries those two counts, and
for two plain copies it reads "Copied 2 files and linked 0 files". -/
theorem c8_reported_counts (env : Env) (descs : List (FsPath × CopyDescriptor)) (cfg : String)
    (work : List CopyDescriptor)
    (hread : ∀ p, (env.fileContent p).isSome)
    (hhash : ∀ s, env.hashString s ≠ "")
    (hcopy : ∀ d, env.copyOk d = true)
    (hwork : transferSet env descs cfg = Except.ok work)
    (hne : work ≠ []) (hdne : descs ≠ []) :
    Event.line (summaryMsg (work.countP fun d => !d.hardlink) (work.countP fun d => d.hardlink))
      ∈ (copyFilesInner env descs cfg).1 ∧
    (∀ evs c l, transferLoop env work = (evs, Except.ok (c, l)) →
      c = work.countP (fun d => !d.hardlink) ∧ l = work.countP (fun d => d.hardlink)) ∧
    summaryMsg 2 0 = "Copied 2 files and linked 0 files" := by
  have hwof : work = workOf env descs cfg := by
    have hts := transferSet_all env descs cfg hread hhash
    rw [hwork] at hts
    exact Except.ok.inj hts
  refine ⟨?_, fun evs c l h => transferLoop_counts env work evs c l h, by decide⟩
  rw [copyFilesInner_all env descs cfg hread hhash hdne]
  rw [if_neg (show ¬(workOf env descs cfg = []) from hwof ▸ hne)]
  simp only [transferLoop_ok env (workOf env descs cfg) fun d _ => hcopy d]
  rw [← hwof]
  simp

/-- C8 witness: the scenario's two plain copies report the counts 2 and 0. -/
theorem c8_reported_counts_witness :
    Event.line (summaryMsg ([dA, dB].countP fun d => !d.hardlink)
        ([dA, dB].countP fun d => d.hardlink)) ∈ (copyFilesInner envW descsW "cfg").1 ∧
    (∀ evs c l, transferLoop envW [dA, dB] = (evs, Except.ok (c, l)) →
      c = [dA, dB].countP (fun d => !d.hardlink) ∧
      l = [dA, dB].countP (fun d => d.hardlink)) ∧
    summaryMsg 2 0 = "Copied 2 files and linked 0 files" :=
  c8_reported_counts envW descsW "cfg" [dA, dB] fsW_total hashFnW_ne envW_copyOk rfl
    (by decide) (by decide)
